import Mathlib

/-!
Shallow embedding of the Game of Life engine in src/index.js.

The JS model is a list of `width` columns, each a list of `height` cells;
`model[n][k]` is the cell at column `n` (x), row `k` (y).  Cells are the
numbers `0` (dead) and `1` (alive).

JavaScript indexing semantics matter for `_next`:
  * `model[i]` with `i` outside `[0, model.length)` evaluates to `undefined`;
    then indexing `undefined[j]` throws a TypeError — embedded as
    `Except.error ()`.
  * `col[j]` with `j` outside `[0, col.length)` evaluates to `undefined`
    (a value, no throw); adding `undefined` to a number yields `NaN`, and
    `NaN` propagates through `+`.  Embedded by `JVal.nan`.
  * every comparison `NaN < 2`, `NaN === 2`, `NaN === 3`, `NaN > 3` is false.
-/

namespace GameOfLife

/-- A JS number as it occurs in the neighbour sums of `_next`: either an
actual (non-negative integer) value, or `NaN` (which also absorbs the
`undefined` produced by an in-column out-of-range read, since the only use
of such a read is as an operand of `+`). -/
inductive JVal where
  | num (v : Nat)
  | nan
  deriving DecidableEq, Repr

/-- JS `+` on the values of `JVal`: numbers add, anything involving
`NaN`/`undefined` is `NaN`. -/
def jadd : JVal → JVal → JVal
  | JVal.num a, JVal.num b => JVal.num (a + b)
  | _, _ => JVal.nan

/-- `model[i]`: a column of the model, `none` when `i` is outside
`[0, model.length)` (JS `undefined`). -/
def colAt (model : List (List Nat)) (i : Int) : Option (List Nat) :=
  if 0 ≤ i then model[i.toNat]? else none

/-- `col[j]`: an entry of a column, `none` when `j` is outside
`[0, col.length)` (JS `undefined`). -/
def entryAt (col : List Nat) (j : Int) : Option Nat :=
  if 0 ≤ j then col[j.toNat]? else none

/-- The read `this._model[i][j]` as it occurs inside the neighbour sums of
`_next`: if `model[i]` is `undefined` the inner indexing throws a TypeError
(`Except.error ()`); otherwise an out-of-range `j` yields `undefined`,
which behaves as `NaN` in the surrounding sum. -/
def readM (model : List (List Nat)) (i j : Int) : Except Unit JVal :=
  match colAt model i with
  | none => Except.error ()
  | some col =>
    match entryAt col j with
    | none => Except.ok JVal.nan
    | some v => Except.ok (JVal.num v)

/-- The in-range read `this._model[n][k]` used for the cell's own state
(`n`, `k` are loop indices, always in range; the default is irrelevant). -/
def cellVal (model : List (List Nat)) (n k : Nat) : Nat :=
  ((model[n]?.getD [])[k]?).getD 0

/-- The tail of a left-to-right JS sum `... + model[i][j] + ...`: `acc` is
the value accumulated so far, each further read either throws (aborting the
whole expression) or is added with `jadd`. -/
def readSumAcc (model : List (List Nat)) (acc : JVal) :
    List (Int × Int) → Except Unit JVal
  | [] => Except.ok acc
  | p :: ps =>
    match readM model p.1 p.2 with
    | Except.error e => Except.error e
    | Except.ok v => readSumAcc model (jadd acc v) ps

/-- A left-to-right JS sum `model[i₁][j₁] + model[i₂][j₂] + ...` of reads at
the given coordinates (the lists below are never empty; the `[]` case is
the neutral `0`). -/
def readSum (model : List (List Nat)) : List (Int × Int) → Except Unit JVal
  | [] => Except.ok (JVal.num 0)
  | p :: ps =>
    match readM model p.1 p.2 with
    | Except.error e => Except.error e
    | Except.ok v => readSumAcc model v ps

/-- The `aliveNeighbours` computation of `_next` (src/index.js lines
92-125), branch for branch.  `w`, `h` are `this._options.width` and
`this._options.height`; the guards compare exactly as the source does
(`!n && !k`; `n === width-1 && !k`; `n === width-1 && k === height`;
`!n && k === height`; `n && k && n < width-1 && k < height-1`), and each
branch performs the same reads in the same left-to-right order.  When no
branch fires, `aliveNeighbours` keeps its initialisation `0`. -/
def aliveNeighbours (w h : Nat) (model : List (List Nat)) (n k : Nat) :
    Except Unit JVal :=
  let ni : Int := n
  let ki : Int := k
  if n = 0 ∧ k = 0 then
    -- Top left corner: model[n+1][k-1] + model[n+1][k] + model[n+1][k+1]
    readSum model [(ni + 1, ki - 1), (ni + 1, ki), (ni + 1, ki + 1)]
  else if n = w - 1 ∧ k = 0 then
    -- Top right corner: model[n-1][k] + model[n-1][k-1] + model[n][k+1]
    readSum model [(ni - 1, ki), (ni - 1, ki - 1), (ni, ki + 1)]
  else if n = w - 1 ∧ k = h then
    -- Bottom right corner (k === height: unreachable, k < column length)
    readSum model [(ni - 1, ki - 1), (ni, ki - 1), (ni - 1, ki)]
  else if n = 0 ∧ k = h then
    -- Bottom left corner (k === height: unreachable, k < column length)
    readSum model [(ni, ki - 1), (ni + 1, ki - 1), (ni + 1, ki)]
  else if 0 < n ∧ 0 < k ∧ n < w - 1 ∧ k < h - 1 then
    -- Everything else: the full 8-neighbour sum
    readSum model [(ni - 1, ki - 1), (ni - 1, ki), (ni - 1, ki + 1),
      (ni, ki - 1), (ni, ki + 1), (ni + 1, ki - 1), (ni + 1, ki),
      (ni + 1, ki + 1)]
  else
    Except.ok (JVal.num 0)

/-- The rule block of `_next` (src/index.js lines 128-136).  `newModel[n][k]`
starts at `0` (the blank `_generateModel()` output), so a fall-through of
every `if` leaves `0`.  With `NaN` every comparison is false, hence `0`. -/
def applyRules (cur : Nat) (a : JVal) : Nat :=
  match a with
  | JVal.num v =>
    if cur ≠ 0 then
      if v < 2 then 0
      else if v = 2 ∨ v = 3 then 1
      else if 3 < v then 0
      else 0
    else if v = 3 then 1 else 0
  | JVal.nan => 0

/-- One iteration of the cell loop of `_next`: the value assigned (or kept,
when no branch assigns) at `newModel[n][k]`, or the TypeError thrown while
computing `aliveNeighbours`. -/
def nextCellE (w h : Nat) (model : List (List Nat)) (n k : Nat) :
    Except Unit Nat :=
  match aliveNeighbours w h model n k with
  | Except.error e => Except.error e
  | Except.ok a => Except.ok (applyRules (cellVal model n k) a)

/-- `for (i = start; i < start + len; ++i)` collecting one value per
iteration, aborting at the first thrown exception (the partial results are
then discarded, exactly as the local `newModel` of `_next` is). -/
def tryMapFrom {α : Type} (f : Nat → Except Unit α) : Nat → Nat → Except Unit (List α)
  | _, 0 => Except.ok []
  | s, len + 1 =>
    match f s with
    | Except.error e => Except.error e
    | Except.ok v =>
      match tryMapFrom f (s + 1) len with
      | Except.error e => Except.error e
      | Except.ok rest => Except.ok (v :: rest)

/-- `this._model[n].length`, the bound of the inner loop of `_next`. -/
def colLen (model : List (List Nat)) (n : Nat) : Nat :=
  (model[n]?.getD []).length

/-- The two nested loops of `_next` (src/index.js lines 90-137): the outer
loop runs `n` over `[0, this._model.length)`, the inner loop runs `k` over
`[0, this._model[n].length)`.  Iteration `(n, k)` writes only
`newModel[n][k]` and reads only the old model, so the new model is built
cell by cell; a thrown TypeError aborts the whole computation and the old
model stays current. -/
def nextModel (w h : Nat) (model : List (List Nat)) :
    Except Unit (List (List Nat)) :=
  tryMapFrom
    (fun n => tryMapFrom (fun k => nextCellE w h model n k) 0 (colLen model n))
    0 model.length

instance {ε α : Type} [DecidableEq ε] [DecidableEq α] :
    DecidableEq (Except ε α)
  | Except.error e1, Except.error e2 =>
    match decEq e1 e2 with
    | isTrue hp => isTrue (by rw [hp])
    | isFalse hp => isFalse (fun hc => by cases hc; exact hp rfl)
  | Except.error e1, Except.ok a2 => isFalse (fun hc => Except.noConfusion hc)
  | Except.ok a1, Except.error e2 => isFalse (fun hc => Except.noConfusion hc)
  | Except.ok a1, Except.ok a2 =>
    match decEq a1 a2 with
    | isTrue hp => isTrue (by rw [hp])
    | isFalse hp => isFalse (fun hc => by cases hc; exact hp rfl)

/-- The engine state: the effective `this._options.width` and
`this._options.height` together with `this._model`. -/
structure Engine where
  width : Nat
  height : Nat
  model : List (List Nat)
  deriving DecidableEq, Repr

/-- `_next` as a state transformer: on success the freshly computed model is
assigned to `this._model`; if a TypeError is thrown mid-loop, `this._model`
is never reassigned (the local `newModel` is discarded), so the engine
keeps its previous model. -/
def step (e : Engine) : Engine :=
  match nextModel e.width e.height e.model with
  | Except.ok m => { e with model := m }
  | Except.error _ => e

/-- `_generateModel` (src/index.js lines 60-75): `width` columns of `height`
cells each.  With `randomizePopulation` falsy every cell is `0`; with it
truthy, cell `(n, k)` is the rounded random draw
`Math.round(Math.round(Math.random()*3) === 3 ? Math.random()*1 : 0)`,
abstracted here as an oracle `rand n k` (a value in `{0, 1}` in the real
program; nothing below depends on its distribution). -/
def generateModel (w h : Nat) (randomizePopulation : Bool)
    (rand : Nat → Nat → Nat) : List (List Nat) :=
  (List.range w).map fun n =>
    (List.range h).map fun k => if randomizePopulation then rand n k else 0

/-- JS option defaulting `value || default` for a numeric option: an absent
option or the falsy number `0` is replaced by the default; every other
value — negative numbers included — is kept unchanged. -/
def effDim (o : Option Int) (d : Int) : Int :=
  match o with
  | none => d
  | some v => if v = 0 then d else v

/-- The `GameOfLife` constructor (src/index.js lines 10-29) restricted to
the simulation core: options default to `100` via `||`, and `restart`
installs `_generateModel({randomizePopulation: true})` as the model.  The
canvas sizing, rendering and `setInterval` cycle are external collaborators.
The constructor contains no dimension validation and no failure path.  A
negative effective dimension makes the corresponding generation loop run
zero times (`n < negative` is false at once), which `Int.toNat` reproduces. -/
def gameOfLife (widthOpt heightOpt : Option Int) (rand : Nat → Nat → Nat) :
    Engine :=
  { width := (effDim widthOpt 100).toNat
    height := (effDim heightOpt 100).toNat
    model := generateModel (effDim widthOpt 100).toNat
      (effDim heightOpt 100).toNat true rand }

/-- The model really is a `w × h` grid: `w` columns of `h` cells each. -/
def WF (w h : Nat) (model : List (List Nat)) : Prop :=
  model.length = w ∧ ∀ col ∈ model, col.length = h

/-- Every cell of the model holds the binary state `0` or `1`. -/
def ValidModel (model : List (List Nat)) : Prop :=
  ∀ col ∈ model, ∀ v ∈ col, v = 0 ∨ v = 1

/-- No cell of the model is alive. -/
def AllDead (model : List (List Nat)) : Prop :=
  ∀ col ∈ model, ∀ v ∈ col, v = 0

instance (w h : Nat) (model : List (List Nat)) : Decidable (WF w h model) := by
  unfold WF; infer_instance

instance (model : List (List Nat)) : Decidable (ValidModel model) := by
  unfold ValidModel; infer_instance

instance (model : List (List Nat)) : Decidable (AllDead model) := by
  unfold AllDead; infer_instance

/-- The sum of the eight Moore neighbours of the strictly interior cell
`(n, k)` (all eight reads in range); for a `ValidModel` this is the number
of live neighbours. -/
def mooreSum (model : List (List Nat)) (n k : Nat) : Nat :=
  cellVal model (n - 1) (k - 1) + cellVal model (n - 1) k +
    cellVal model (n - 1) (k + 1) + cellVal model n (k - 1) +
    cellVal model n (k + 1) + cellVal model (n + 1) (k - 1) +
    cellVal model (n + 1) k + cellVal model (n + 1) (k + 1)

/-- Modelled from the spec: the neighbour count the spec prescribes — the
number of live cells among exactly the in-bounds Moore neighbours of
`(n, k)`, every out-of-bounds coordinate excluded.  (Stated from the
spec's words for comparison with `aliveNeighbours`; the source has no such
computation.) -/
def specNeighbourCount (w h : Nat) (model : List (List Nat)) (n k : Nat) :
    Nat :=
  List.length <| ([(-1, -1), (-1, 0), (-1, 1), (0, -1), (0, 1), (1, -1), (1, 0), (1, 1)] :
      List (Int × Int)).filter fun d =>
    0 ≤ (n : Int) + d.1 ∧ (n : Int) + d.1 < (w : Int) ∧
      0 ≤ (k : Int) + d.2 ∧ (k : Int) + d.2 < (h : Int) ∧
      cellVal model ((n : Int) + d.1).toNat ((k : Int) + d.2).toNat = 1

/-- A `w × h` grid whose only live cells are the horizontal triple
`(c-1, r), (c, r), (c+1, r)` (a blinker centred at `(c, r)`). -/
def blinkerH (w h c r : Nat) : List (List Nat) :=
  (List.range w).map fun n =>
    (List.range h).map fun k =>
      if k = r ∧ (n = c - 1 ∨ n = c ∨ n = c + 1) then 1 else 0

/-- A `w × h` grid whose only live cells are the vertical triple
`(c, r-1), (c, r), (c, r+1)` (a blinker centred at `(c, r)`). -/
def blinkerV (w h c r : Nat) : List (List Nat) :=
  (List.range w).map fun n =>
    (List.range h).map fun k =>
      if n = c ∧ (k = r - 1 ∨ k = r ∨ k = r + 1) then 1 else 0

end GameOfLife

namespace GameOfLife

/-! ## Loop lemmas -/

theorem tryMapFrom_length {α : Type} {f : Nat → Except Unit α} :
    ∀ {len s : Nat} {l : List α},
      tryMapFrom f s len = Except.ok l → l.length = len := by
  intro len
  induction len with
  | zero =>
    intro s l hl
    unfold tryMapFrom at hl
    cases hl
    rfl
  | succ m ih =>
    intro s l hl
    unfold tryMapFrom at hl
    cases hfs : f s with
    | error e => rw [hfs] at hl; cases hl
    | ok v =>
      rw [hfs] at hl
      cases hrec : tryMapFrom f (s + 1) m with
      | error e => rw [hrec] at hl; cases hl
      | ok rest =>
        rw [hrec] at hl
        cases hl
        simp [ih hrec]

theorem tryMapFrom_get {α : Type} {f : Nat → Except Unit α} :
    ∀ {len s : Nat} {l : List α}, tryMapFrom f s len = Except.ok l →
      ∀ i, i < len → ∃ v, f (s + i) = Except.ok v ∧ l[i]? = some v := by
  intro len
  induction len with
  | zero => intro s l _ i hi; omega
  | succ m ih =>
    intro s l hl i hi
    unfold tryMapFrom at hl
    cases hfs : f s with
    | error e => rw [hfs] at hl; cases hl
    | ok v =>
      rw [hfs] at hl
      cases hrec : tryMapFrom f (s + 1) m with
      | error e => rw [hrec] at hl; cases hl
      | ok rest =>
        rw [hrec] at hl
        cases hl
        cases i with
        | zero => exact ⟨v, by simpa using hfs, by simp⟩
        | succ i2 =>
          have hi2 : i2 < m := by omega
          obtain ⟨u, hu1, hu2⟩ := ih hrec i2 hi2
          exact ⟨u, by rw [show s + (i2 + 1) = s + 1 + i2 by omega]; exact hu1,
            by simpa using hu2⟩

theorem tryMapFrom_ok {α : Type} {f : Nat → Except Unit α} :
    ∀ (len s : Nat), (∀ i, i < len → ∃ v, f (s + i) = Except.ok v) →
      ∃ l, tryMapFrom f s len = Except.ok l := by
  intro len
  induction len with
  | zero => intro s _; exact ⟨[], rfl⟩
  | succ m ih =>
    intro s hall
    obtain ⟨v, hv⟩ := hall 0 (by omega)
    rw [Nat.add_zero] at hv
    obtain ⟨rest, hrest⟩ :=
      ih (s + 1) (fun i hi => by
        obtain ⟨u, hu⟩ := hall (i + 1) (by omega)
        exact ⟨u, by rw [show s + 1 + i = s + (i + 1) by omega]; exact hu⟩)
    refine ⟨v :: rest, ?_⟩
    unfold tryMapFrom
    rw [hv, hrest]

theorem tryMapFrom_eq_map {α : Type} {f : Nat → Except Unit α} (g : Nat → α) :
    ∀ (len s : Nat), (∀ i, i < len → f (s + i) = Except.ok (g (s + i))) →
      tryMapFrom f s len = Except.ok ((List.range' s len).map g) := by
  intro len
  induction len with
  | zero => intro s _; rfl
  | succ m ih =>
    intro s hall
    have h0 : f s = Except.ok (g s) := by simpa using hall 0 (by omega)
    have hrec : tryMapFrom f (s + 1) m =
        Except.ok ((List.range' (s + 1) m).map g) :=
      ih (s + 1) (fun i hi => by
        rw [show s + 1 + i = s + (i + 1) by omega]; exact hall (i + 1) (by omega))
    unfold tryMapFrom
    rw [h0, hrec]
    simp [List.range']

/-! ## Read lemmas -/

theorem readM_num {model : List (List Nat)} {a b : Nat}
    (ha : a < model.length) (hb : b < colLen model a) :
    readM model (a : Int) (b : Int) = Except.ok (JVal.num (cellVal model a b)) := by
  have hcol : model[a]? = some model[a] := List.getElem?_eq_getElem ha
  have hb2 : b < model[a].length := by
    unfold colLen at hb
    rw [hcol] at hb
    simpa using hb
  have hv : model[a][b]? = some (model[a][b]) := List.getElem?_eq_getElem hb2
  unfold readM colAt entryAt cellVal
  simp [hcol, hv]

theorem readM_ok (model : List (List Nat)) (i j : Int)
    (h0 : 0 ≤ i) (h1 : i < (model.length : Int)) :
    ∃ v, readM model i j = Except.ok v := by
  have hlt : i.toNat < model.length := by omega
  have hcol : model[i.toNat]? = some model[i.toNat] :=
    List.getElem?_eq_getElem hlt
  unfold readM colAt
  rw [if_pos h0, hcol]
  cases hj : entryAt model[i.toNat] j with
  | none => exact ⟨JVal.nan, by simp [hj]⟩
  | some v => exact ⟨JVal.num v, by simp [hj]⟩

theorem readM_nan_neg {model : List (List Nat)} {i j : Int}
    (h0 : 0 ≤ i) (h1 : i < (model.length : Int)) (hj : j < 0) :
    readM model i j = Except.ok JVal.nan := by
  have hlt : i.toNat < model.length := by omega
  have hcol : model[i.toNat]? = some model[i.toNat] :=
    List.getElem?_eq_getElem hlt
  have hent : entryAt model[i.toNat] j = none := by
    unfold entryAt
    rw [if_neg (by omega)]
  unfold readM colAt
  rw [if_pos h0]
  simp only [hcol, hent]

theorem jadd_nan_left (v : JVal) : jadd JVal.nan v = JVal.nan := by
  cases v <;> rfl

theorem jadd_nan_right (v : JVal) : jadd v JVal.nan = JVal.nan := by
  cases v <;> rfl

theorem readSumAcc_cons {model : List (List Nat)} {p : Int × Int}
    {ps : List (Int × Int)} {acc v : JVal}
    (hv : readM model p.1 p.2 = Except.ok v) :
    readSumAcc model acc (p :: ps) = readSumAcc model (jadd acc v) ps := by
  simp only [readSumAcc, hv]

theorem readSum_cons {model : List (List Nat)} {p : Int × Int}
    {ps : List (Int × Int)} {v : JVal}
    (hv : readM model p.1 p.2 = Except.ok v) :
    readSum model (p :: ps) = readSumAcc model v ps := by
  simp only [readSum, hv]

theorem readSumAcc_nan {model : List (List Nat)} :
    ∀ (ps : List (Int × Int)),
      (∀ p ∈ ps, ∃ v, readM model p.1 p.2 = Except.ok v) →
      readSumAcc model JVal.nan ps = Except.ok JVal.nan := by
  intro ps
  induction ps with
  | nil => intro _; rfl
  | cons p ps ih =>
    intro hall
    obtain ⟨v, hv⟩ := hall p (by simp)
    rw [readSumAcc_cons hv, jadd_nan_left]
    exact ih (fun q hq => hall q (by simp [hq]))

theorem readSumAcc_mem_nan {model : List (List Nat)} :
    ∀ (ps : List (Int × Int)) (acc : JVal),
      (∀ p ∈ ps, ∃ v, readM model p.1 p.2 = Except.ok v) →
      (∃ p ∈ ps, readM model p.1 p.2 = Except.ok JVal.nan) →
      readSumAcc model acc ps = Except.ok JVal.nan := by
  intro ps
  induction ps with
  | nil => intro acc _ hmem; simp at hmem
  | cons p ps ih =>
    intro acc hall hmem
    obtain ⟨v, hv⟩ := hall p (by simp)
    rw [readSumAcc_cons hv]
    obtain ⟨q, hq1, hq2⟩ := hmem
    rcases List.mem_cons.mp hq1 with hqp | hqtail
    · subst hqp
      rw [hq2] at hv
      cases hv
      rw [jadd_nan_right]
      exact readSumAcc_nan ps (fun r hr => hall r (by simp [hr]))
    · exact ih (jadd acc v) (fun r hr => hall r (by simp [hr])) ⟨q, hqtail, hq2⟩

theorem readSum_mem_nan {model : List (List Nat)} (ps : List (Int × Int))
    (hall : ∀ p ∈ ps, ∃ v, readM model p.1 p.2 = Except.ok v)
    (hmem : ∃ p ∈ ps, readM model p.1 p.2 = Except.ok JVal.nan) :
    readSum model ps = Except.ok JVal.nan := by
  cases ps with
  | nil => obtain ⟨p, hp, _⟩ := hmem; simp at hp
  | cons p ps =>
    obtain ⟨v, hv⟩ := hall p (by simp)
    rw [readSum_cons hv]
    obtain ⟨q, hq1, hq2⟩ := hmem
    rcases List.mem_cons.mp hq1 with hqp | hqtail
    · subst hqp
      rw [hq2] at hv
      cases hv
      exact readSumAcc_nan ps (fun r hr => hall r (by simp [hr]))
    · exact readSumAcc_mem_nan ps v (fun r hr => hall r (by simp [hr]))
        ⟨q, hqtail, hq2⟩

theorem readSumAcc_eval {model : List (List Nat)} (val : Int × Int → Nat) :
    ∀ (ps : List (Int × Int)) (acc : Nat),
      (∀ p ∈ ps, readM model p.1 p.2 = Except.ok (JVal.num (val p))) →
      readSumAcc model (JVal.num acc) ps =
        Except.ok (JVal.num (acc + (ps.map val).sum)) := by
  intro ps
  induction ps with
  | nil => intro acc _; simp [readSumAcc]
  | cons p ps ih =>
    intro acc hall
    rw [readSumAcc_cons (hall p (by simp))]
    show readSumAcc model (JVal.num (acc + val p)) ps = _
    rw [ih (acc + val p) (fun q hq => hall q (by simp [hq]))]
    simp [Nat.add_assoc]

theorem readSum_eval {model : List (List Nat)} (val : Int × Int → Nat)
    (p : Int × Int) (ps : List (Int × Int))
    (hall : ∀ q ∈ p :: ps, readM model q.1 q.2 = Except.ok (JVal.num (val q))) :
    readSum model (p :: ps) = Except.ok (JVal.num (((p :: ps).map val).sum)) := by
  rw [readSum_cons (hall p (by simp))]
  rw [readSumAcc_eval val ps (val p) (fun q hq => hall q (by simp [hq]))]
  simp

theorem readSumAcc_ok {model : List (List Nat)} :
    ∀ (ps : List (Int × Int)) (acc : JVal),
      (∀ p ∈ ps, ∃ v, readM model p.1 p.2 = Except.ok v) →
      ∃ u, readSumAcc model acc ps = Except.ok u := by
  intro ps
  induction ps with
  | nil => intro acc _; exact ⟨acc, rfl⟩
  | cons p ps ih =>
    intro acc hall
    obtain ⟨v, hv⟩ := hall p (by simp)
    rw [readSumAcc_cons hv]
    exact ih (jadd acc v) (fun q hq => hall q (by simp [hq]))

theorem readSum_ok {model : List (List Nat)} (ps : List (Int × Int))
    (hall : ∀ p ∈ ps, ∃ v, readM model p.1 p.2 = Except.ok v) :
    ∃ u, readSum model ps = Except.ok u := by
  cases ps with
  | nil => exact ⟨JVal.num 0, rfl⟩
  | cons p ps =>
    obtain ⟨v, hv⟩ := hall p (by simp)
    rw [readSum_cons hv]
    exact readSumAcc_ok ps v (fun q hq => hall q (by simp [hq]))

/-! ## Well-formedness helpers -/

theorem colLen_eq {w h : Nat} {model : List (List Nat)} (hWF : WF w h model)
    {n : Nat} (hn : n < w) : colLen model n = h := by
  obtain ⟨hlen, hcols⟩ := hWF
  have hlt : n < model.length := by omega
  have hcol : model[n]? = some model[n] := List.getElem?_eq_getElem hlt
  unfold colLen
  rw [hcol]
  simpa using hcols _ (List.getElem?_mem hcol)

theorem readM_at (w h : Nat) {model : List (List Nat)} (hWF : WF w h model)
    (a b : Nat) (ha : a < w) (hb : b < h) {i j : Int}
    (hi : i = (a : Int)) (hj : j = (b : Int)) :
    readM model i j = Except.ok (JVal.num (cellVal model a b)) := by
  subst hi
  subst hj
  apply readM_num
  · rw [hWF.1]; exact ha
  · rw [colLen_eq hWF ha]; exact hb

/-! ## The five branches of aliveNeighbours -/

theorem aliveNeighbours_interior {w h : Nat} {model : List (List Nat)}
    (hWF : WF w h model) {n k : Nat}
    (hn1 : 1 ≤ n) (hn2 : n + 1 < w) (hk1 : 1 ≤ k) (hk2 : k + 1 < h) :
    aliveNeighbours w h model n k =
      Except.ok (JVal.num (mooreSum model n k)) := by
  have r1 := readM_at w h hWF (n - 1) (k - 1) (by omega) (by omega)
    (show (n : Int) - 1 = ((n - 1 : Nat) : Int) by omega)
    (show (k : Int) - 1 = ((k - 1 : Nat) : Int) by omega)
  have r2 := readM_at w h hWF (n - 1) k (by omega) (by omega)
    (show (n : Int) - 1 = ((n - 1 : Nat) : Int) by omega) rfl
  have r3 := readM_at w h hWF (n - 1) (k + 1) (by omega) (by omega)
    (show (n : Int) - 1 = ((n - 1 : Nat) : Int) by omega)
    (show (k : Int) + 1 = ((k + 1 : Nat) : Int) by omega)
  have r4 := readM_at w h hWF n (k - 1) (by omega) (by omega) rfl
    (show (k : Int) - 1 = ((k - 1 : Nat) : Int) by omega)
  have r5 := readM_at w h hWF n (k + 1) (by omega) (by omega) rfl
    (show (k : Int) + 1 = ((k + 1 : Nat) : Int) by omega)
  have r6 := readM_at w h hWF (n + 1) (k - 1) (by omega) (by omega)
    (show (n : Int) + 1 = ((n + 1 : Nat) : Int) by omega)
    (show (k : Int) - 1 = ((k - 1 : Nat) : Int) by omega)
  have r7 := readM_at w h hWF (n + 1) k (by omega) (by omega)
    (show (n : Int) + 1 = ((n + 1 : Nat) : Int) by omega) rfl
  have r8 := readM_at w h hWF (n + 1) (k + 1) (by omega) (by omega)
    (show (n : Int) + 1 = ((n + 1 : Nat) : Int) by omega)
    (show (k : Int) + 1 = ((k + 1 : Nat) : Int) by omega)
  simp only [aliveNeighbours]
  rw [if_neg (by omega), if_neg (by omega), if_neg (by omega), if_neg (by omega),
    if_pos (by omega)]
  rw [readSum_cons r1, readSumAcc_cons r2, readSumAcc_cons r3, readSumAcc_cons r4,
    readSumAcc_cons r5, readSumAcc_cons r6, readSumAcc_cons r7, readSumAcc_cons r8]
  simp only [readSumAcc, jadd, mooreSum]

theorem aliveNeighbours_topLeft {w h : Nat} {model : List (List Nat)}
    (hWF : WF w h model) (hw : 2 ≤ w) :
    aliveNeighbours w h model 0 0 = Except.ok JVal.nan := by
  have hlen : model.length = w := hWF.1
  have r1 : readM model (((0 : Nat) : Int) + 1) (((0 : Nat) : Int) - 1) =
      Except.ok JVal.nan := readM_nan_neg (by omega) (by omega) (by omega)
  obtain ⟨v2, r2⟩ :=
    readM_ok model (((0 : Nat) : Int) + 1) ((0 : Nat) : Int)
      (by omega) (by omega)
  obtain ⟨v3, r3⟩ :=
    readM_ok model (((0 : Nat) : Int) + 1) (((0 : Nat) : Int) + 1)
      (by omega) (by omega)
  simp only [aliveNeighbours]
  rw [if_pos (by simp)]
  rw [readSum_cons r1, readSumAcc_cons r2, jadd_nan_left, readSumAcc_cons r3,
    jadd_nan_left]
  rfl

theorem aliveNeighbours_topRight {w h : Nat} {model : List (List Nat)}
    (hWF : WF w h model) (hw : 2 ≤ w) {n : Nat} (hn : n = w - 1) :
    aliveNeighbours w h model n 0 = Except.ok JVal.nan := by
  have hlen : model.length = w := hWF.1
  obtain ⟨v1, r1⟩ :=
    readM_ok model ((n : Int) - 1) ((0 : Nat) : Int)
      (by omega) (by omega)
  have r2 : readM model ((n : Int) - 1) (((0 : Nat) : Int) - 1) =
      Except.ok JVal.nan := readM_nan_neg (by omega) (by omega) (by omega)
  obtain ⟨v3, r3⟩ :=
    readM_ok model (n : Int) (((0 : Nat) : Int) + 1)
      (by omega) (by omega)
  simp only [aliveNeighbours]
  rw [if_neg (by simp only [and_true]; omega), if_pos (by simp only [and_true]; omega)]
  rw [readSum_cons r1, readSumAcc_cons r2, jadd_nan_right, readSumAcc_cons r3,
    jadd_nan_left]
  rfl

theorem aliveNeighbours_edge {w h : Nat} {model : List (List Nat)} {n k : Nat}
    (hn : n < w) (hk : k < h)
    (hb : n = 0 ∨ k = 0 ∨ n = w - 1 ∨ k = h - 1)
    (h1 : ¬(n = 0 ∧ k = 0)) (h2 : ¬(n = w - 1 ∧ k = 0)) :
    aliveNeighbours w h model n k = Except.ok (JVal.num 0) := by
  simp only [aliveNeighbours]
  rw [if_neg h1, if_neg h2, if_neg (by omega), if_neg (by omega),
    if_neg (by omega)]

theorem aliveNeighbours_ok {w h : Nat} {model : List (List Nat)}
    (hWF : WF w h model) (hw : 2 ≤ w) {n k : Nat} (hn : n < w) (hk : k < h) :
    ∃ a, aliveNeighbours w h model n k = Except.ok a := by
  have hlen : model.length = w := hWF.1
  simp only [aliveNeighbours]
  by_cases g1 : n = 0 ∧ k = 0
  · obtain ⟨hn0, hk0⟩ := g1
    rw [if_pos ⟨hn0, hk0⟩]
    apply readSum_ok
    intro p hp
    fin_cases hp <;> exact readM_ok model _ _ (by omega) (by omega)
  by_cases g2 : n = w - 1 ∧ k = 0
  · obtain ⟨hn1, hk0⟩ := g2
    rw [if_neg g1, if_pos ⟨hn1, hk0⟩]
    apply readSum_ok
    intro p hp
    fin_cases hp <;> exact readM_ok model _ _ (by omega) (by omega)
  by_cases g5 : 0 < n ∧ 0 < k ∧ n < w - 1 ∧ k < h - 1
  · obtain ⟨ha, hb, hc, hd⟩ := g5
    rw [if_neg g1, if_neg g2, if_neg (by omega), if_neg (by omega),
      if_pos ⟨ha, hb, hc, hd⟩]
    apply readSum_ok
    intro p hp
    fin_cases hp <;> exact readM_ok model _ _ (by omega) (by omega)
  · rw [if_neg g1, if_neg g2, if_neg (by omega), if_neg (by omega), if_neg g5]
    exact ⟨JVal.num 0, rfl⟩

/-! ## nextModel and step lemmas -/

theorem nextCellE_ok {w h : Nat} {model : List (List Nat)} {n k : Nat} {a : JVal}
    (ha : aliveNeighbours w h model n k = Except.ok a) :
    nextCellE w h model n k = Except.ok (applyRules (cellVal model n k) a) := by
  simp only [nextCellE, ha]

theorem nextModel_ok_cell {w h : Nat} {model m2 : List (List Nat)}
    (hWF : WF w h model) (hok : nextModel w h model = Except.ok m2)
    {n k : Nat} (hn : n < w) (hk : k < h) :
    ∃ a, aliveNeighbours w h model n k = Except.ok a ∧
      cellVal m2 n k = applyRules (cellVal model n k) a := by
  have hlen : model.length = w := hWF.1
  unfold nextModel at hok
  obtain ⟨col, hcol1, hcol2⟩ := tryMapFrom_get hok n (by omega)
  simp only [Nat.zero_add] at hcol1
  rw [colLen_eq hWF hn] at hcol1
  obtain ⟨v, hv1, hv2⟩ := tryMapFrom_get hcol1 k (by omega)
  simp only [Nat.zero_add] at hv1
  cases ha : aliveNeighbours w h model n k with
  | error e =>
    simp only [nextCellE, ha] at hv1
    exact Except.noConfusion hv1
  | ok a =>
    refine ⟨a, rfl, ?_⟩
    rw [nextCellE_ok ha] at hv1
    injection hv1 with hv3
    rw [show applyRules (cellVal model n k) a = v from hv3]
    unfold cellVal
    rw [hcol2]
    simp [hv2]

theorem nextModel_ok_WF {w h : Nat} {model m2 : List (List Nat)}
    (hWF : WF w h model) (hok : nextModel w h model = Except.ok m2) :
    WF w h m2 := by
  have hlen : model.length = w := hWF.1
  unfold nextModel at hok
  have hm2len : m2.length = w := by rw [tryMapFrom_length hok]; exact hlen
  refine ⟨hm2len, ?_⟩
  intro col hcol
  obtain ⟨i, hi⟩ := List.mem_iff_getElem?.mp hcol
  have hilt : i < m2.length := by
    by_contra hc
    rw [List.getElem?_eq_none (by omega)] at hi
    cases hi
  obtain ⟨col2, hcol1, hcol2⟩ := tryMapFrom_get hok i (by omega)
  simp only [Nat.zero_add] at hcol1
  rw [hcol2] at hi
  injection hi with hi2
  subst hi2
  rw [tryMapFrom_length hcol1]
  exact colLen_eq hWF (by omega)

theorem nextModel_ok {w h : Nat} {model : List (List Nat)}
    (hWF : WF w h model) (hw : 2 ≤ w) :
    ∃ m2, nextModel w h model = Except.ok m2 := by
  unfold nextModel
  apply tryMapFrom_ok
  intro n hn2
  simp only [Nat.zero_add]
  have hnw : n < w := by rw [hWF.1] at hn2; exact hn2
  rw [colLen_eq hWF hnw]
  apply tryMapFrom_ok
  intro k hk
  simp only [Nat.zero_add]
  obtain ⟨a, ha⟩ := aliveNeighbours_ok hWF hw hnw hk
  exact ⟨_, nextCellE_ok ha⟩

theorem step_width (e : Engine) : (step e).width = e.width := by
  unfold step
  cases nextModel e.width e.height e.model <;> rfl

theorem step_height (e : Engine) : (step e).height = e.height := by
  unfold step
  cases nextModel e.width e.height e.model <;> rfl

theorem step_model {e : Engine} {m2 : List (List Nat)}
    (hok : nextModel e.width e.height e.model = Except.ok m2) :
    (step e).model = m2 := by
  simp only [step, hok]

theorem step_of_error {e : Engine} {err : Unit}
    (herr : nextModel e.width e.height e.model = Except.error err) :
    step e = e := by
  simp only [step, herr]

/-! ## applyRules lemmas -/

theorem applyRules_nan (cur : Nat) : applyRules cur JVal.nan = 0 := rfl

theorem applyRules_num (cur v : Nat) :
    applyRules cur (JVal.num v) =
      if cur ≠ 0 then (if v = 2 ∨ v = 3 then 1 else 0)
      else if v = 3 then 1 else 0 := by
  simp only [applyRules]
  split_ifs <;> omega

/-! ## All-dead grids -/

theorem cellVal_allDead {model : List (List Nat)} (hAD : AllDead model)
    (n k : Nat) : cellVal model n k = 0 := by
  unfold cellVal
  cases hcol : model[n]? with
  | none => simp
  | some col =>
    cases hv : col[k]? with
    | none => simp [hv]
    | some v =>
      have hv0 : v = 0 :=
        hAD col (List.getElem?_mem hcol) v (List.getElem?_mem hv)
      simp [hv, hv0]

theorem readM_allDead {model : List (List Nat)} (hAD : AllDead model)
    (i j : Int) {v : JVal} (hv : readM model i j = Except.ok v) :
    v = JVal.num 0 ∨ v = JVal.nan := by
  unfold readM at hv
  cases hc : colAt model i with
  | none => rw [hc] at hv; cases hv
  | some col =>
    have hcm : col ∈ model := by
      unfold colAt at hc
      by_cases h0 : (0 : Int) ≤ i
      · rw [if_pos h0] at hc
        exact List.getElem?_mem hc
      · rw [if_neg h0] at hc
        cases hc
    rw [hc] at hv
    cases he : entryAt col j with
    | none =>
      simp only [he] at hv
      injection hv with hv2
      exact Or.inr hv2.symm
    | some u =>
      have hum : u ∈ col := by
        unfold entryAt at he
        by_cases h0 : (0 : Int) ≤ j
        · rw [if_pos h0] at he
          exact List.getElem?_mem he
        · rw [if_neg h0] at he
          cases he
      simp only [he] at hv
      injection hv with hv2
      left
      rw [← hv2, hAD col hcm u hum]

theorem readSumAcc_allDead {model : List (List Nat)} (hAD : AllDead model) :
    ∀ (ps : List (Int × Int)) (acc : JVal) {u : JVal},
      (acc = JVal.num 0 ∨ acc = JVal.nan) →
      readSumAcc model acc ps = Except.ok u →
      u = JVal.num 0 ∨ u = JVal.nan := by
  intro ps
  induction ps with
  | nil =>
    intro acc u hacc heq
    unfold readSumAcc at heq
    injection heq with h2
    rw [← h2]
    exact hacc
  | cons p ps ih =>
    intro acc u hacc heq
    cases hr : readM model p.1 p.2 with
    | error e =>
      simp only [readSumAcc, hr] at heq
      exact Except.noConfusion heq
    | ok v =>
      rw [readSumAcc_cons hr] at heq
      have hv := readM_allDead hAD _ _ hr
      refine ih (jadd acc v) ?_ heq
      rcases hacc with h1 | h1 <;> rcases hv with h2 | h2 <;>
        rw [h1, h2] <;> simp [jadd]

theorem aliveNeighbours_allDead {w h : Nat} {model : List (List Nat)}
    (hAD : AllDead model) {n k : Nat} {a : JVal}
    (ha : aliveNeighbours w h model n k = Except.ok a) :
    a = JVal.num 0 ∨ a = JVal.nan := by
  have key : ∀ ps : List (Int × Int), readSum model ps = Except.ok a →
      a = JVal.num 0 ∨ a = JVal.nan := by
    intro ps hps
    cases ps with
    | nil =>
      unfold readSum at hps
      injection hps with h2
      exact Or.inl h2.symm
    | cons p ps =>
      cases hr : readM model p.1 p.2 with
      | error e =>
        simp only [readSum, hr] at hps
        exact Except.noConfusion hps
      | ok v =>
        rw [readSum_cons hr] at hps
        exact readSumAcc_allDead hAD ps v (readM_allDead hAD _ _ hr) hps
  simp only [aliveNeighbours] at ha
  split_ifs at ha
  · exact key _ ha
  · exact key _ ha
  · exact key _ ha
  · exact key _ ha
  · exact key _ ha
  · injection ha with h2
    exact Or.inl h2.symm

theorem step_allDead {e : Engine} (hAD : AllDead e.model) :
    AllDead (step e).model := by
  cases hok : nextModel e.width e.height e.model with
  | error err =>
    rw [step_of_error hok]
    exact hAD
  | ok m2 =>
    rw [step_model hok]
    intro col hcol v hv
    obtain ⟨i, hi⟩ := List.mem_iff_getElem?.mp hcol
    obtain ⟨j, hj⟩ := List.mem_iff_getElem?.mp hv
    unfold nextModel at hok
    have hm2len := tryMapFrom_length hok
    have hilt : i < e.model.length := by
      by_contra hc
      rw [List.getElem?_eq_none (by omega)] at hi
      cases hi
    obtain ⟨col2, hcol1, hcol2⟩ := tryMapFrom_get hok i hilt
    simp only [Nat.zero_add] at hcol1
    rw [hcol2] at hi
    injection hi with hi2
    subst hi2
    have hcol2len := tryMapFrom_length hcol1
    have hjlt : j < colLen e.model i := by
      by_contra hc
      rw [List.getElem?_eq_none (by omega)] at hj
      cases hj
    obtain ⟨u, hu1, hu2⟩ := tryMapFrom_get hcol1 j hjlt
    simp only [Nat.zero_add] at hu1
    rw [hu2] at hj
    injection hj with hj2
    subst hj2
    cases ha : aliveNeighbours e.width e.height e.model i j with
    | error er =>
      simp only [nextCellE, ha] at hu1
      exact Except.noConfusion hu1
    | ok a =>
      rw [nextCellE_ok ha] at hu1
      injection hu1 with hu3
      rw [← hu3, cellVal_allDead hAD]
      rcases aliveNeighbours_allDead hAD ha with h0 | h0 <;> rw [h0] <;>
        simp [applyRules]

/-! ## Grids given by a generating function -/

theorem cellVal_gen (w h : Nat) (g : Nat → Nat → Nat) (n k : Nat) :
    cellVal ((List.range w).map fun x => (List.range h).map fun y => g x y) n k =
      if n < w ∧ k < h then g n k else 0 := by
  unfold cellVal
  by_cases hn : n < w
  · rw [List.getElem?_map, List.getElem?_range hn]
    by_cases hk : k < h
    · rw [if_pos ⟨hn, hk⟩]
      show ((List.range h).map fun y => g n y)[k]?.getD 0 = g n k
      rw [List.getElem?_map, List.getElem?_range hk]
      rfl
    · rw [if_neg (by omega)]
      show ((List.range h).map fun y => g n y)[k]?.getD 0 = 0
      rw [List.getElem?_map,
        List.getElem?_eq_none (by simp only [List.length_range]; omega)]
      rfl
  · have hnone :
        ((List.range w).map fun x => (List.range h).map fun y => g x y)[n]? =
          none :=
      List.getElem?_eq_none
        (by simp only [List.length_map, List.length_range]; omega)
    rw [hnone, if_neg (by omega)]
    rfl

theorem WF_gen (w h : Nat) (g : Nat → Nat → Nat) :
    WF w h ((List.range w).map fun x => (List.range h).map fun y => g x y) := by
  constructor
  · simp
  · intro col hcol
    simp only [List.mem_map] at hcol
    obtain ⟨x, _, hx⟩ := hcol
    rw [← hx]
    simp

theorem nextModel_eq_of_cells {w h : Nat} {model : List (List Nat)}
    (hWF : WF w h model) (expected : Nat → Nat → Nat)
    (hcell : ∀ n k, n < w → k < h →
      nextCellE w h model n k = Except.ok (expected n k)) :
    nextModel w h model =
      Except.ok ((List.range w).map fun n =>
        (List.range h).map fun k => expected n k) := by
  have hinner : ∀ i, i < w →
      tryMapFrom (fun k => nextCellE w h model i k) 0 h =
        Except.ok ((List.range h).map fun k => expected i k) := by
    intro i hiw
    rw [tryMapFrom_eq_map (fun k => expected i k) h 0
      (fun j hj => by simp only [Nat.zero_add]; exact hcell i j hiw hj)]
    rw [← List.range_eq_range']
  have houter : ∀ i, i < model.length →
      (fun n => tryMapFrom (fun k => nextCellE w h model n k) 0
          (colLen model n)) (0 + i) =
        Except.ok ((fun n => (List.range h).map fun k => expected n k)
          (0 + i)) := by
    intro i hi
    simp only [Nat.zero_add]
    have hiw : i < w := by rw [← hWF.1]; exact hi
    rw [colLen_eq hWF hiw]
    exact hinner i hiw
  unfold nextModel
  rw [tryMapFrom_eq_map (fun n => (List.range h).map fun k => expected n k)
    model.length 0 houter]
  rw [← List.range_eq_range', hWF.1]

/-! ## Further helper lemmas -/

theorem applyRules_num0 (cur : Nat) : applyRules cur (JVal.num 0) = 0 := by
  rw [applyRules_num]
  simp

theorem nextModel_w1_error {h : Nat} {model : List (List Nat)}
    (hWF : WF 1 h model) (hh : 1 ≤ h) :
    nextModel 1 h model = Except.error () := by
  have hlen : model.length = 1 := hWF.1
  have hr : readM model (((0 : Nat) : Int) + 1) (((0 : Nat) : Int) - 1) =
      Except.error () := by
    unfold readM colAt
    rw [if_pos (by omega), List.getElem?_eq_none (by omega)]
  have ha : aliveNeighbours 1 h model 0 0 = Except.error () := by
    simp only [aliveNeighbours]
    rw [if_pos (by simp)]
    simp only [readSum, hr]
  have hcell : nextCellE 1 h model 0 0 = Except.error () := by
    simp only [nextCellE, ha]
  have hcl : colLen model 0 = h := colLen_eq hWF (by omega)
  obtain ⟨h2, rfl⟩ : ∃ h2, h = h2 + 1 := ⟨h - 1, by omega⟩
  have hinner : tryMapFrom (fun k => nextCellE 1 (h2 + 1) model 0 k) 0
      (colLen model 0) = Except.error () := by
    rw [hcl]
    unfold tryMapFrom
    simp only [hcell]
  unfold nextModel
  rw [hlen]
  unfold tryMapFrom
  simp only [hinner]

/-! ## Claim theorems -/

/-- C1: for every grid and every strictly interior cell (all 8 Moore
neighbours in bounds), `step()` applies the standard rule: a live cell
survives iff its live-neighbour count (= `mooreSum`, the sum of the eight
0/1 neighbours) is 2 or 3, a dead cell becomes alive iff the count is
exactly 3, and every other case yields Dead; in particular a count of 3
forces Alive regardless of the current state. -/
theorem interiorRule (w h : Nat) (model : List (List Nat)) (n k : Nat)
    (hWF : WF w h model) (hV : ValidModel model)
    (hn1 : 1 ≤ n) (hn2 : n + 1 < w) (hk1 : 1 ≤ k) (hk2 : k + 1 < h) :
    cellVal (step (Engine.mk w h model)).model n k =
      (if cellVal model n k ≠ 0 then
        if mooreSum model n k = 2 ∨ mooreSum model n k = 3 then 1 else 0
      else if mooreSum model n k = 3 then 1 else 0) ∧
    (mooreSum model n k = 3 →
      cellVal (step (Engine.mk w h model)).model n k = 1) := by
  obtain ⟨m2, hok⟩ := nextModel_ok hWF (by omega)
  have hmodel : (step (Engine.mk w h model)).model = m2 := step_model hok
  obtain ⟨a, ha, hcell⟩ :=
    nextModel_ok_cell hWF hok (show n < w by omega) (show k < h by omega)
  rw [aliveNeighbours_interior hWF hn1 hn2 hk1 hk2] at ha
  injection ha with ha2
  rw [hmodel, hcell, ← ha2, applyRules_num]
  refine ⟨rfl, ?_⟩
  intro h3
  rw [h3]
  split_ifs <;> simp_all

/-- Witness for C1: the interior cell (1,1) of a 3×3 grid with live cells
(0,0), (0,1), (0,2); it has exactly 3 live neighbours and becomes Alive. -/
theorem interiorRule_witness :
    (WF 3 3 [[1, 1, 1], [0, 0, 0], [0, 0, 0]] ∧
      ValidModel [[1, 1, 1], [0, 0, 0], [0, 0, 0]] ∧
      mooreSum [[1, 1, 1], [0, 0, 0], [0, 0, 0]] 1 1 = 3) ∧
    (cellVal (step (Engine.mk 3 3 [[1, 1, 1], [0, 0, 0], [0, 0, 0]])).model 1 1 =
      (if cellVal [[1, 1, 1], [0, 0, 0], [0, 0, 0]] 1 1 ≠ 0 then
        if mooreSum [[1, 1, 1], [0, 0, 0], [0, 0, 0]] 1 1 = 2 ∨
            mooreSum [[1, 1, 1], [0, 0, 0], [0, 0, 0]] 1 1 = 3 then 1 else 0
      else if mooreSum [[1, 1, 1], [0, 0, 0], [0, 0, 0]] 1 1 = 3 then 1
        else 0) ∧
    (mooreSum [[1, 1, 1], [0, 0, 0], [0, 0, 0]] 1 1 = 3 →
      cellVal (step (Engine.mk 3 3 [[1, 1, 1], [0, 0, 0], [0, 0, 0]])).model
        1 1 = 1)) :=
  ⟨⟨by decide, by decide, by decide⟩,
    interiorRule 3 3 [[1, 1, 1], [0, 0, 0], [0, 0, 0]] 1 1 (by decide)
      (by decide) (by decide) (by decide) (by decide) (by decide)⟩

/-- C5: a grid with no live cell stays free of live cells after any number
of `step()` calls (when width = 1 and height ≥ 1 a step throws and the
model is kept, which also preserves emptiness). -/
theorem emptyStaysEmpty (e : Engine) (j : Nat) (hAD : AllDead e.model) :
    AllDead ((step^[j]) e).model := by
  induction j with
  | zero => simpa using hAD
  | succ m ih =>
    rw [Function.iterate_succ_apply']
    exact step_allDead ih

/-- Witness for C5: the empty 3×3 grid after 2 steps. -/
theorem emptyStaysEmpty_witness :
    AllDead (Engine.mk 3 3 [[0, 0, 0], [0, 0, 0], [0, 0, 0]]).model ∧
      AllDead ((step^[2])
        (Engine.mk 3 3 [[0, 0, 0], [0, 0, 0], [0, 0, 0]])).model :=
  ⟨by decide,
    emptyStaysEmpty (Engine.mk 3 3 [[0, 0, 0], [0, 0, 0], [0, 0, 0]]) 2
      (by decide)⟩

/-- C8: `_generateModel` with `randomizePopulation = false` (the
`initialize(w, h, false)` path) yields a `w × h` grid in which every cell
is Dead, whatever the random oracle would have returned. -/
theorem initializeBlankDead (w h : Nat) (rand : Nat → Nat → Nat)
    (hw : 0 < w) (hh : 0 < h) :
    (generateModel w h false rand).length = w ∧
      (∀ col ∈ generateModel w h false rand, col.length = h) ∧
      AllDead (generateModel w h false rand) := by
  refine ⟨by simp [generateModel], ?_, ?_⟩
  · intro col hcol
    simp only [generateModel, List.mem_map] at hcol
    obtain ⟨x, _, hx⟩ := hcol
    rw [← hx]
    simp
  · intro col hcol v hv
    simp only [generateModel, List.mem_map] at hcol
    obtain ⟨x, _, hx⟩ := hcol
    rw [← hx] at hv
    simp only [List.mem_map] at hv
    obtain ⟨y, _, hy⟩ := hv
    simp at hy
    omega

/-- Witness for C8 at w = h = 2 with an oracle that would make every cell
alive. -/
theorem initializeBlankDead_witness :
    ((0 : Nat) < 2 ∧ (0 : Nat) < 2) ∧
    ((generateModel 2 2 false fun _ _ => 1).length = 2 ∧
      (∀ col ∈ generateModel 2 2 false fun _ _ => 1, col.length = 2) ∧
      AllDead (generateModel 2 2 false fun _ _ => 1)) :=
  ⟨⟨by decide, by decide⟩,
    initializeBlankDead 2 2 (fun _ _ => 1) (by decide) (by decide)⟩

/-- C9: the engine's width and height fields never change under iterated
`step()` calls and the model stays a width × height grid; in particular a
single `step()` output has exactly the input's dimensions. -/
theorem dimsInvariant (e : Engine) (j : Nat)
    (hWF : WF e.width e.height e.model) :
    ((step^[j]) e).width = e.width ∧ ((step^[j]) e).height = e.height ∧
      WF e.width e.height ((step^[j]) e).model := by
  induction j with
  | zero => exact ⟨rfl, rfl, by simpa using hWF⟩
  | succ m ih =>
    obtain ⟨hw, hh, hwf⟩ := ih
    rw [Function.iterate_succ_apply']
    refine ⟨by rw [step_width]; exact hw, by rw [step_height]; exact hh, ?_⟩
    cases hok : nextModel ((step^[m]) e).width ((step^[m]) e).height
        ((step^[m]) e).model with
    | error err =>
      rw [step_of_error hok]
      exact hwf
    | ok m2 =>
      rw [step_model hok]
      have hwf2 : WF ((step^[m]) e).width ((step^[m]) e).height
          ((step^[m]) e).model := by rw [hw, hh]; exact hwf
      have hres := nextModel_ok_WF hwf2 hok
      rw [hw, hh] at hres
      exact hres

/-- Witness for C9 after one step of a well-formed 2×2 grid. -/
theorem dimsInvariant_witness :
    WF (Engine.mk 2 2 [[1, 0], [0, 1]]).width
      (Engine.mk 2 2 [[1, 0], [0, 1]]).height
      (Engine.mk 2 2 [[1, 0], [0, 1]]).model ∧
    (((step^[1]) (Engine.mk 2 2 [[1, 0], [0, 1]])).width =
        (Engine.mk 2 2 [[1, 0], [0, 1]]).width ∧
      ((step^[1]) (Engine.mk 2 2 [[1, 0], [0, 1]])).height =
        (Engine.mk 2 2 [[1, 0], [0, 1]]).height ∧
      WF (Engine.mk 2 2 [[1, 0], [0, 1]]).width
        (Engine.mk 2 2 [[1, 0], [0, 1]]).height
        (((step^[1]) (Engine.mk 2 2 [[1, 0], [0, 1]])).model)) :=
  ⟨by decide, dimsInvariant (Engine.mk 2 2 [[1, 0], [0, 1]]) 1 (by decide)⟩

/-- C10: whenever `_next` completes (produces a grid), every cell on the
grid boundary — first column, first row, last column or last row — is Dead
in the produced grid, whatever the input grid held: the two top corners get
a NaN count, all other boundary cells a count of 0, and both make every
rule branch fall through to the Dead default. -/
theorem boundaryDead (w h : Nat) (model m2 : List (List Nat)) (n k : Nat)
    (hWF : WF w h model) (hok : nextModel w h model = Except.ok m2)
    (hn : n < w) (hk : k < h)
    (hb : n = 0 ∨ k = 0 ∨ n = w - 1 ∨ k = h - 1) :
    cellVal m2 n k = 0 := by
  have hw2 : 2 ≤ w := by
    by_contra hc
    have hw1 : w = 1 := by omega
    subst hw1
    rw [nextModel_w1_error hWF (by omega)] at hok
    exact Except.noConfusion hok
  obtain ⟨a, ha, hcell⟩ := nextModel_ok_cell hWF hok hn hk
  by_cases g1 : n = 0 ∧ k = 0
  · obtain ⟨hn0, hk0⟩ := g1
    subst hn0
    subst hk0
    rw [aliveNeighbours_topLeft hWF hw2] at ha
    injection ha with ha2
    rw [hcell, ← ha2, applyRules_nan]
  by_cases g2 : n = w - 1 ∧ k = 0
  · obtain ⟨hn1, hk0⟩ := g2
    subst hk0
    rw [aliveNeighbours_topRight hWF hw2 hn1] at ha
    injection ha with ha2
    rw [hcell, ← ha2, applyRules_nan]
  · rw [aliveNeighbours_edge hn hk hb g1 g2] at ha
    injection ha with ha2
    rw [hcell, ← ha2, applyRules_num0]

/-- Witness for C10: the all-alive 3×3 grid steps to the all-dead grid;
cell (0,1) on the boundary is Dead. -/
theorem boundaryDead_witness :
    (WF 3 3 [[1, 1, 1], [1, 1, 1], [1, 1, 1]] ∧
      nextModel 3 3 [[1, 1, 1], [1, 1, 1], [1, 1, 1]] =
        Except.ok [[0, 0, 0], [0, 0, 0], [0, 0, 0]] ∧
      ((0 : Nat) = 0 ∨ (1 : Nat) = 0 ∨ (0 : Nat) = 3 - 1 ∨
        (1 : Nat) = 3 - 1)) ∧
    cellVal [[0, 0, 0], [0, 0, 0], [0, 0, 0]] 0 1 = 0 :=
  ⟨⟨by decide, by decide, by decide⟩,
    boundaryDead 3 3 [[1, 1, 1], [1, 1, 1], [1, 1, 1]]
      [[0, 0, 0], [0, 0, 0], [0, 0, 0]] 0 1 (by decide) (by decide)
      (by decide) (by decide) (by decide)⟩

/-- C2 (code-bug evidence): on a 3×3 grid with the middle column alive, the
edge cell (0,1) has 3 live in-bounds neighbours by the spec's count
(`specNeighbourCount`), yet the code computes 0 for it (no branch of
`aliveNeighbours` covers non-corner edge cells) and leaves it Dead. -/
theorem edgeCountBug :
    specNeighbourCount 3 3 [[0, 0, 0], [1, 1, 1], [0, 0, 0]] 0 1 = 3 ∧
      aliveNeighbours 3 3 [[0, 0, 0], [1, 1, 1], [0, 0, 0]] 0 1 =
        Except.ok (JVal.num 0) ∧
      nextModel 3 3 [[0, 0, 0], [1, 1, 1], [0, 0, 0]] =
        Except.ok [[0, 0, 0], [0, 1, 0], [0, 0, 0]] ∧
      cellVal [[0, 0, 0], [0, 1, 0], [0, 0, 0]] 0 1 = 0 := by
  refine ⟨by decide, by decide, by decide, by decide⟩

/-- C3 (code-bug evidence): on a 3×3 grid with (0,1), (1,0), (1,1) alive,
the corner (0,0) has all three of its in-bounds neighbours alive
(spec count 3), but the code's top-left branch reads `model[1][-1]`
(out of bounds, `undefined`) and sums `model[1][0] + model[1][1]` with it,
producing NaN — it never reads the in-bounds neighbour (0,1) — so the
corner stays Dead instead of being counted correctly. -/
theorem cornerCountBug :
    specNeighbourCount 3 3 [[0, 1, 0], [1, 1, 0], [0, 0, 0]] 0 0 = 3 ∧
      readM [[0, 1, 0], [1, 1, 0], [0, 0, 0]] 1 (-1) = Except.ok JVal.nan ∧
      aliveNeighbours 3 3 [[0, 1, 0], [1, 1, 0], [0, 0, 0]] 0 0 =
        Except.ok JVal.nan ∧
      nextModel 3 3 [[0, 1, 0], [1, 1, 0], [0, 0, 0]] =
        Except.ok [[0, 0, 0], [0, 1, 0], [0, 0, 0]] ∧
      cellVal [[0, 0, 0], [0, 1, 0], [0, 0, 0]] 0 0 = 0 := by
  refine ⟨by decide, by decide, by decide, by decide, by decide⟩

/-- C4 counterexample: constructing with width 0 (a non-positive width)
does not fail — the falsy `0` is replaced by the default 100 and a
100-column grid is produced; a negative width is kept and yields a grid
with no columns.  No `InvalidDimension` error exists anywhere in the
constructor. -/
theorem noInvalidDimensionError :
    (gameOfLife (some 0) (some 5) fun _ _ => 0).width = 100 ∧
      (gameOfLife (some 0) (some 5) fun _ _ => 0).model.length = 100 ∧
      (gameOfLife (some (-3)) (some 5) fun _ _ => 0).model = [] := by
  refine ⟨rfl, ?_, rfl⟩
  simp [gameOfLife, generateModel, effDim]

/-- C4 amended: the constructor is total; the effective dimensions are the
options run through JS `value || 100` defaulting (`0` and absent values
become 100, negative values are kept), and the produced model always has
exactly `effective width` columns of `effective height` cells. -/
theorem gameOfLife_dims (wo ho : Option Int) (rand : Nat → Nat → Nat) :
    (gameOfLife wo ho rand).width = (effDim wo 100).toNat ∧
      (gameOfLife wo ho rand).height = (effDim ho 100).toNat ∧
      (gameOfLife wo ho rand).model.length = (effDim wo 100).toNat ∧
      ∀ col ∈ (gameOfLife wo ho rand).model,
        col.length = (effDim ho 100).toNat := by
  refine ⟨rfl, rfl, by simp [gameOfLife, generateModel], ?_⟩
  intro col hcol
  simp only [gameOfLife, generateModel, List.mem_map] at hcol
  obtain ⟨x, _, hx⟩ := hcol
  rw [← hx]
  simp

/-- C6 (code-bug evidence): a 2×2 block of live cells placed at the
top-left corner of a 4×4 grid is not a still life under this code — one
step kills every block cell on the boundary and leaves only (1,1) alive. -/
theorem blockCornerDies :
    step (Engine.mk 4 4
        [[1, 1, 0, 0], [1, 1, 0, 0], [0, 0, 0, 0], [0, 0, 0, 0]]) =
      Engine.mk 4 4
        [[0, 0, 0, 0], [0, 1, 0, 0], [0, 0, 0, 0], [0, 0, 0, 0]] ∧
    step (Engine.mk 4 4
        [[1, 1, 0, 0], [1, 1, 0, 0], [0, 0, 0, 0], [0, 0, 0, 0]]) ≠
      Engine.mk 4 4
        [[1, 1, 0, 0], [1, 1, 0, 0], [0, 0, 0, 0], [0, 0, 0, 0]] := by
  refine ⟨by decide, by decide⟩

/-! ## The blinker -/

theorem blinkerH_cells {w h c r : Nat} (hc1 : 2 ≤ c) (hc2 : c + 2 < w)
    (hr1 : 2 ≤ r) (hr2 : r + 2 < h) :
    ∀ n k, n < w → k < h →
      nextCellE w h (blinkerH w h c r) n k =
        Except.ok (if n = c ∧ (k = r - 1 ∨ k = r ∨ k = r + 1) then 1 else 0) := by
  have hWF : WF w h (blinkerH w h c r) := WF_gen w h _
  have cv : ∀ a b, a < w → b < h →
      cellVal (blinkerH w h c r) a b =
        if b = r ∧ (a = c - 1 ∨ a = c ∨ a = c + 1) then 1 else 0 := by
    intro a b ha hb
    unfold blinkerH
    rw [cellVal_gen, if_pos ⟨ha, hb⟩]
  intro n k hn hk
  by_cases hbd : n = 0 ∨ k = 0 ∨ n = w - 1 ∨ k = h - 1
  · have hval : (if n = c ∧ (k = r - 1 ∨ k = r ∨ k = r + 1) then (1 : Nat)
        else 0) = 0 := by
      rw [if_neg]
      rintro ⟨hnc, hkr⟩
      omega
    rw [hval]
    by_cases g1 : n = 0 ∧ k = 0
    · obtain ⟨e1, e2⟩ := g1
      subst e1
      subst e2
      rw [nextCellE_ok (aliveNeighbours_topLeft hWF (by omega)), applyRules_nan]
    by_cases g2 : n = w - 1 ∧ k = 0
    · obtain ⟨e1, e2⟩ := g2
      subst e2
      rw [nextCellE_ok (aliveNeighbours_topRight hWF (by omega) e1),
        applyRules_nan]
    · rw [nextCellE_ok (aliveNeighbours_edge hn hk hbd g1 g2), applyRules_num0]
  · push_neg at hbd
    obtain ⟨b1, b2, b3, b4⟩ := hbd
    rw [nextCellE_ok (aliveNeighbours_interior hWF (by omega) (by omega)
      (by omega) (by omega))]
    congr 1
    unfold mooreSum
    rw [cv (n - 1) (k - 1) (by omega) (by omega), cv (n - 1) k (by omega)
      (by omega), cv (n - 1) (k + 1) (by omega) (by omega), cv n (k - 1)
      (by omega) (by omega), cv n (k + 1) (by omega) (by omega),
      cv (n + 1) (k - 1) (by omega) (by omega), cv (n + 1) k (by omega)
      (by omega), cv (n + 1) (k + 1) (by omega) (by omega),
      cv n k (by omega) (by omega)]
    rw [applyRules_num]
    rcases (by omega :
        k + 1 = r ∨ k = r ∨ k = r + 1 ∨ (k + 1 < r ∨ r + 1 < k))
      with hkc | hkc | hkc | hkc
    · have f1 : (k - 1 = r) = False := eq_false (by omega)
      have f2 : (k = r) = False := eq_false (by omega)
      have f3 : (k + 1 = r) = True := eq_true (by omega)
      have f4 : (k = r - 1) = True := eq_true (by omega)
      have f5 : (k = r + 1) = False := eq_false (by omega)
      simp only [f1, f2, f3, f4, f5, false_and, true_and, and_true, and_false,
        false_or, true_or, or_false, or_true, if_false, if_true]
      split_ifs <;> omega
    · have f1 : (k - 1 = r) = False := eq_false (by omega)
      have f2 : (k = r) = True := eq_true (by omega)
      have f3 : (k + 1 = r) = False := eq_false (by omega)
      have f4 : (k = r - 1) = False := eq_false (by omega)
      have f5 : (k = r + 1) = False := eq_false (by omega)
      simp only [f1, f2, f3, f4, f5, false_and, true_and, and_true, and_false,
        false_or, true_or, or_false, or_true, if_false, if_true]
      split_ifs <;> omega
    · have f1 : (k - 1 = r) = True := eq_true (by omega)
      have f2 : (k = r) = False := eq_false (by omega)
      have f3 : (k + 1 = r) = False := eq_false (by omega)
      have f4 : (k = r - 1) = False := eq_false (by omega)
      have f5 : (k = r + 1) = True := eq_true (by omega)
      simp only [f1, f2, f3, f4, f5, false_and, true_and, and_true, and_false,
        false_or, true_or, or_false, or_true, if_false, if_true]
      split_ifs <;> omega
    · have f1 : (k - 1 = r) = False := eq_false (by omega)
      have f2 : (k = r) = False := eq_false (by omega)
      have f3 : (k + 1 = r) = False := eq_false (by omega)
      have f4 : (k = r - 1) = False := eq_false (by omega)
      have f5 : (k = r + 1) = False := eq_false (by omega)
      simp only [f1, f2, f3, f4, f5, false_and, true_and, and_true, and_false,
        false_or, true_or, or_false, or_true, if_false, if_true]
      split_ifs <;> omega

theorem blinkerV_cells {w h c r : Nat} (hc1 : 2 ≤ c) (hc2 : c + 2 < w)
    (hr1 : 2 ≤ r) (hr2 : r + 2 < h) :
    ∀ n k, n < w → k < h →
      nextCellE w h (blinkerV w h c r) n k =
        Except.ok (if k = r ∧ (n = c - 1 ∨ n = c ∨ n = c + 1) then 1 else 0) := by
  have hWF : WF w h (blinkerV w h c r) := WF_gen w h _
  have cv : ∀ a b, a < w → b < h →
      cellVal (blinkerV w h c r) a b =
        if a = c ∧ (b = r - 1 ∨ b = r ∨ b = r + 1) then 1 else 0 := by
    intro a b ha hb
    unfold blinkerV
    rw [cellVal_gen, if_pos ⟨ha, hb⟩]
  intro n k hn hk
  by_cases hbd : n = 0 ∨ k = 0 ∨ n = w - 1 ∨ k = h - 1
  · have hval : (if k = r ∧ (n = c - 1 ∨ n = c ∨ n = c + 1) then (1 : Nat)
        else 0) = 0 := by
      rw [if_neg]
      rintro ⟨hkr, hnc⟩
      omega
    rw [hval]
    by_cases g1 : n = 0 ∧ k = 0
    · obtain ⟨e1, e2⟩ := g1
      subst e1
      subst e2
      rw [nextCellE_ok (aliveNeighbours_topLeft hWF (by omega)), applyRules_nan]
    by_cases g2 : n = w - 1 ∧ k = 0
    · obtain ⟨e1, e2⟩ := g2
      subst e2
      rw [nextCellE_ok (aliveNeighbours_topRight hWF (by omega) e1),
        applyRules_nan]
    · rw [nextCellE_ok (aliveNeighbours_edge hn hk hbd g1 g2), applyRules_num0]
  · push_neg at hbd
    obtain ⟨b1, b2, b3, b4⟩ := hbd
    rw [nextCellE_ok (aliveNeighbours_interior hWF (by omega) (by omega)
      (by omega) (by omega))]
    congr 1
    unfold mooreSum
    rw [cv (n - 1) (k - 1) (by omega) (by omega), cv (n - 1) k (by omega)
      (by omega), cv (n - 1) (k + 1) (by omega) (by omega), cv n (k - 1)
      (by omega) (by omega), cv n (k + 1) (by omega) (by omega),
      cv (n + 1) (k - 1) (by omega) (by omega), cv (n + 1) k (by omega)
      (by omega), cv (n + 1) (k + 1) (by omega) (by omega),
      cv n k (by omega) (by omega)]
    rw [applyRules_num]
    rcases (by omega :
        n + 1 = c ∨ n = c ∨ n = c + 1 ∨ (n + 1 < c ∨ c + 1 < n))
      with hnc | hnc | hnc | hnc
    · have f1 : (n - 1 = c) = False := eq_false (by omega)
      have f2 : (n = c) = False := eq_false (by omega)
      have f3 : (n + 1 = c) = True := eq_true (by omega)
      have f4 : (n = c - 1) = True := eq_true (by omega)
      have f5 : (n = c + 1) = False := eq_false (by omega)
      simp only [f1, f2, f3, f4, f5, false_and, true_and, and_true, and_false,
        false_or, true_or, or_false, or_true, if_false, if_true]
      split_ifs <;> omega
    · have f1 : (n - 1 = c) = False := eq_false (by omega)
      have f2 : (n = c) = True := eq_true (by omega)
      have f3 : (n + 1 = c) = False := eq_false (by omega)
      have f4 : (n = c - 1) = False := eq_false (by omega)
      have f5 : (n = c + 1) = False := eq_false (by omega)
      simp only [f1, f2, f3, f4, f5, false_and, true_and, and_true, and_false,
        false_or, true_or, or_false, or_true, if_false, if_true]
      split_ifs <;> omega
    · have f1 : (n - 1 = c) = True := eq_true (by omega)
      have f2 : (n = c) = False := eq_false (by omega)
      have f3 : (n + 1 = c) = False := eq_false (by omega)
      have f4 : (n = c - 1) = False := eq_false (by omega)
      have f5 : (n = c + 1) = True := eq_true (by omega)
      simp only [f1, f2, f3, f4, f5, false_and, true_and, and_true, and_false,
        false_or, true_or, or_false, or_true, if_false, if_true]
      split_ifs <;> omega
    · have f1 : (n - 1 = c) = False := eq_false (by omega)
      have f2 : (n = c) = False := eq_false (by omega)
      have f3 : (n + 1 = c) = False := eq_false (by omega)
      have f4 : (n = c - 1) = False := eq_false (by omega)
      have f5 : (n = c + 1) = False := eq_false (by omega)
      simp only [f1, f2, f3, f4, f5, false_and, true_and, and_true, and_false,
        false_or, true_or, or_false, or_true, if_false, if_true]
      split_ifs <;> omega

theorem stepBlinkerH {w h c r : Nat} (hc1 : 2 ≤ c) (hc2 : c + 2 < w)
    (hr1 : 2 ≤ r) (hr2 : r + 2 < h) :
    step (Engine.mk w h (blinkerH w h c r)) =
      Engine.mk w h (blinkerV w h c r) := by
  have hok : nextModel w h (blinkerH w h c r) =
      Except.ok (blinkerV w h c r) :=
    nextModel_eq_of_cells (WF_gen w h _)
      (fun n k => if n = c ∧ (k = r - 1 ∨ k = r ∨ k = r + 1) then 1 else 0)
      (blinkerH_cells hc1 hc2 hr1 hr2)
  simp only [step, hok]

theorem stepBlinkerV {w h c r : Nat} (hc1 : 2 ≤ c) (hc2 : c + 2 < w)
    (hr1 : 2 ≤ r) (hr2 : r + 2 < h) :
    step (Engine.mk w h (blinkerV w h c r)) =
      Engine.mk w h (blinkerH w h c r) := by
  have hok : nextModel w h (blinkerV w h c r) =
      Except.ok (blinkerH w h c r) :=
    nextModel_eq_of_cells (WF_gen w h _)
      (fun n k => if k = r ∧ (n = c - 1 ∨ n = c ∨ n = c + 1) then 1 else 0)
      (blinkerV_cells hc1 hc2 hr1 hr2)
  simp only [step, hok]

/-- C7 counterexample: a horizontal blinker centred at (4,1) on an
otherwise-empty 9×9 grid — one row below the top edge — does not become the
vertical triple through its centre, and two steps do not restore it (the
boundary row is unconditionally Dead, so the upper cell of the vertical
triple is never born and the pattern then dies out). -/
theorem blinkerNearEdge_counterexample :
    step (Engine.mk 9 9 (blinkerH 9 9 4 1)) ≠
        Engine.mk 9 9 (blinkerV 9 9 4 1) ∧
      step (step (Engine.mk 9 9 (blinkerH 9 9 4 1))) ≠
        Engine.mk 9 9 (blinkerH 9 9 4 1) := by
  refine ⟨by decide, by decide⟩

/-- C7 amended: a horizontal 3-cell blinker centred at `(c, r)` in an
otherwise-empty grid, placed so that the pattern is at least two cells
from every edge, becomes the vertical triple through the same centre after
one `step()`, the horizontal triple again after the next, and in general
returns to its original state after every 2 steps. -/
theorem blinkerOscillates (w h c r : Nat) (hc1 : 2 ≤ c) (hc2 : c + 2 < w)
    (hr1 : 2 ≤ r) (hr2 : r + 2 < h) :
    step (Engine.mk w h (blinkerH w h c r)) =
        Engine.mk w h (blinkerV w h c r) ∧
      step (Engine.mk w h (blinkerV w h c r)) =
        Engine.mk w h (blinkerH w h c r) ∧
      ∀ m, (step^[2 * m]) (Engine.mk w h (blinkerH w h c r)) =
        Engine.mk w h (blinkerH w h c r) := by
  have h1 := stepBlinkerH hc1 hc2 hr1 hr2
  have h2 := stepBlinkerV hc1 hc2 hr1 hr2
  refine ⟨h1, h2, ?_⟩
  intro m
  induction m with
  | zero => rfl
  | succ m2 ih =>
    have he : 2 * (m2 + 1) = 2 * m2 + 2 := by ring
    rw [he, Function.iterate_add_apply]
    have hstep2 : (step^[2]) (Engine.mk w h (blinkerH w h c r)) =
        Engine.mk w h (blinkerH w h c r) := by
      show step (step (Engine.mk w h (blinkerH w h c r))) =
        Engine.mk w h (blinkerH w h c r)
      rw [h1, h2]
    rw [hstep2, ih]

/-- Witness for C7: the blinker centred at (2,2) on a 5×5 grid. -/
theorem blinkerOscillates_witness :
    ((2 : Nat) ≤ 2 ∧ 2 + 2 < 5 ∧ (2 : Nat) ≤ 2 ∧ 2 + 2 < 5) ∧
    (step (Engine.mk 5 5 (blinkerH 5 5 2 2)) =
        Engine.mk 5 5 (blinkerV 5 5 2 2) ∧
      step (Engine.mk 5 5 (blinkerV 5 5 2 2)) =
        Engine.mk 5 5 (blinkerH 5 5 2 2) ∧
      ∀ m, (step^[2 * m]) (Engine.mk 5 5 (blinkerH 5 5 2 2)) =
        Engine.mk 5 5 (blinkerH 5 5 2 2)) :=
  ⟨⟨by decide, by decide, by decide, by decide⟩,
    blinkerOscillates 5 5 2 2 (by decide) (by decide) (by decide) (by decide)⟩

end GameOfLife
